import Mathlib

/-!
Verification of the request-orchestration core of the wayback-mcp-server
repository: a shallow embedding, in Lean 4, of

* the cache-key generation of `Cache.generateKey` (src/cache/cache.ts), with a
  faithful model of `JSON.stringify` on parameter records of scalar values;
* the `Cache.set` / `Cache.get` TTL semantics and the `CACHE_TTL` table;
* the sliding-window rate limiter (`RateLimiter.acquire`, src/utils/rate-limiter.ts);
* the retry loop (`WaybackClient.withRetry`, src/api/client.ts);
* the CDX site-URL pipeline of `CdxApi.getSiteUrls` (resume-key detection,
  `aggregateByUrl`, limit and sort application order, src/api/cdx.ts);
* the availability check with www-variant merging (src/api/availability.ts);
* the snapshot comparison of `DiffService.compareSnapshots` (src/api/diff.ts).

JavaScript numbers that the modelled code paths only ever use at integral
values are modelled as `Int` (or `Nat` for counts); JavaScript's string
comparison (UTF-16 code-unit order) is modelled by Lean's lexicographic
`String` order, which agrees with it on all strings of basic-plane characters
(every string appearing in the modelled code paths).  Stateful code is
modelled by explicit state passing; `async` suspension is irrelevant to the
verified properties because execution is single-threaded and cooperative.
-/

namespace Wayback

/-! ## JavaScript scalar values

Parameter records passed to `Cache.generateKey` hold scalar values:
strings, (integral) numbers, booleans, `null`, or `undefined`.  These are the
only value shapes the repository ever places in a query-parameter record. -/

inductive JsVal : Type where
  | jstr (s : String)
  | jnum (n : Int)
  | jbool (b : Bool)
  | jnull
  | jsUndefined
deriving DecidableEq, Repr

/-! ## JSON.stringify on scalar values and flat records

`escChar` is the escaping `JSON.stringify` applies inside a quoted string:
`"` and `\` get a backslash, the five control characters with short escapes
use them, the remaining control characters (code points < 0x20) become
`\u00XX` with lowercase hex digits, and every other character is copied. -/

def hexDigit (n : Nat) : Char :=
  if n < 10 then Char.ofNat (48 + n) else Char.ofNat (87 + n)

def escChar (c : Char) : List Char :=
  if c = '"' then ['\\', '"']
  else if c = '\\' then ['\\', '\\']
  else if c = Char.ofNat 8 then ['\\', 'b']
  else if c = Char.ofNat 9 then ['\\', 't']
  else if c = Char.ofNat 10 then ['\\', 'n']
  else if c = Char.ofNat 12 then ['\\', 'f']
  else if c = Char.ofNat 13 then ['\\', 'r']
  else if c.toNat < 32 then
    ['\\', 'u', '0', '0', hexDigit (c.toNat / 16), hexDigit (c.toNat % 16)]
  else [c]

def escapeL (l : List Char) : List Char :=
  l.flatMap escChar

/-- Decimal digits of a natural number, most significant first
(the rendering `String(n)` / `JSON.stringify(n)` uses). -/
def natDec (n : Nat) : List Char :=
  if h : n < 10 then [Char.ofNat (48 + n)]
  else natDec (n / 10) ++ [Char.ofNat (48 + n % 10)]
decreasing_by
  exact Nat.div_lt_self (by omega) (by omega)

def intDec (n : Int) : List Char :=
  if n < 0 then '-' :: natDec (-n).toNat else natDec n.toNat

/-- `JSON.stringify` of one scalar value (as a character list).  `jsUndefined` never
reaches serialization: `generateKey` strips undefined-valued keys first. -/
def serVal : JsVal → List Char
  | .jstr s => '"' :: (escapeL s.data ++ ['"'])
  | .jnum n => intDec n
  | .jbool true => ['t', 'r', 'u', 'e']
  | .jbool false => ['f', 'a', 'l', 's', 'e']
  | .jnull => ['n', 'u', 'l', 'l']
  | .jsUndefined => []

/-- One `"key":value` member of the serialized object. -/
def serEntry (kv : String × JsVal) : List Char :=
  '"' :: (escapeL kv.1.data ++ ['"', ':'] ++ serVal kv.2)

def joinComma : List (List Char) → List Char
  | [] => []
  | [x] => x
  | x :: y :: t => x ++ ',' :: joinComma (y :: t)

/-- `JSON.stringify` of a flat object whose members appear in list order. -/
def serObj (l : List (String × JsVal)) : List Char :=
  '{' :: (joinComma (l.map serEntry) ++ ['}'])

/-! ## A stable comparator sort

`Array.prototype.sort` (and the key sort inside `generateKey`) is a stable
comparator sort; a stable sort's output is uniquely determined by the
comparator, so any stable sorting algorithm models it.  We use insertion
sort, which the kernel can also evaluate on concrete inputs.  `le a b = true`
means "a may stay left of b"; an element being inserted came later in the
original list, so it moves past `y` only when `y` is strictly before it. -/

def insertS (le : α → α → Bool) (x : α) : List α → List α
  | [] => [x]
  | y :: ys => if le y x && !le x y then y :: insertS le x ys else x :: y :: ys

def sortS (le : α → α → Bool) : List α → List α
  | [] => []
  | x :: xs => insertS le x (sortS le xs)

/-! ## Cache.generateKey (src/cache/cache.ts)

```ts
generateKey(prefix, params) {
  const sortedParams = Object.keys(params).sort().reduce((acc, key) => {
    if (params[key] !== undefined) acc[key] = params[key];
    return acc;
  }, {});
  return `${prefix}:${JSON.stringify(sortedParams)}`;
}
```

A parameter record is an insertion-ordered association list with pairwise
distinct keys (JavaScript objects cannot repeat a key). -/

/-- Code-unit lexicographic strict comparison on character lists (the
comparison JavaScript's default `sort()` and `<` perform on strings). -/
def strLtL : List Char → List Char → Bool
  | [], [] => false
  | [], _ :: _ => true
  | _ :: _, [] => false
  | a :: as, b :: bs =>
    if a.toNat < b.toNat then true
    else if b.toNat < a.toNat then false
    else strLtL as bs

/-- `a` may stay left of `b` in a sort: `!(b < a)`. -/
def strLe (a b : String) : Bool := !strLtL b.data a.data

/-- The body of the `reduce`: a key is kept, paired with its value, exactly
when its value is defined. -/
def keyBinding (params : List (String × JsVal)) (k : String) : Option (String × JsVal) :=
  match params.lookup k with
  | some v => if v = .jsUndefined then none else some (k, v)
  | none => none

/-- The `Object.keys(params).sort().reduce(...)` canonicalization: keys in
sorted order, undefined-valued keys stripped, each kept key paired with its
value. -/
def canon (params : List (String × JsVal)) : List (String × JsVal) :=
  (sortS strLe (params.map Prod.fst)).filterMap (keyBinding params)

def generateKey (pfx : String) (params : List (String × JsVal)) : String :=
  ⟨pfx.data ++ ':' :: serObj (canon params)⟩

/-- The record's logically meaningful content: its non-undefined bindings. -/
def definedPart (params : List (String × JsVal)) : List (String × JsVal) :=
  params.filter fun kv => kv.2 ≠ .jsUndefined

/-! ## A decoder for the serialized form

To prove that `generateKey` separates records that differ in a non-undefined
binding we exhibit a decoder and prove the round trip
`parseObjFull (serObj l) = some l`; injectivity of `serObj` follows.  The
decoder exists only for this proof; it is not part of the modelled program. -/

def parseHexDigit (c : Char) : Option Nat :=
  if 48 ≤ c.toNat ∧ c.toNat ≤ 57 then some (c.toNat - 48)
  else if 97 ≤ c.toNat ∧ c.toNat ≤ 102 then some (c.toNat - 87)
  else none

def parseStrBody : List Char → Option (List Char × List Char)
  | [] => none
  | c :: r =>
    if c = '"' then some ([], r)
    else if c = '\\' then
      match r with
      | [] => none
      | e :: r2 =>
        if e = '"' then (fun p => ('"' :: p.1, p.2)) <$> parseStrBody r2
        else if e = '\\' then (fun p => ('\\' :: p.1, p.2)) <$> parseStrBody r2
        else if e = 'b' then (fun p => (Char.ofNat 8 :: p.1, p.2)) <$> parseStrBody r2
        else if e = 't' then (fun p => (Char.ofNat 9 :: p.1, p.2)) <$> parseStrBody r2
        else if e = 'n' then (fun p => (Char.ofNat 10 :: p.1, p.2)) <$> parseStrBody r2
        else if e = 'f' then (fun p => (Char.ofNat 12 :: p.1, p.2)) <$> parseStrBody r2
        else if e = 'r' then (fun p => (Char.ofNat 13 :: p.1, p.2)) <$> parseStrBody r2
        else if e = 'u' then
          match r2 with
          | h1 :: h2 :: h3 :: h4 :: r3 =>
            match parseHexDigit h1, parseHexDigit h2, parseHexDigit h3, parseHexDigit h4 with
            | some a, some b, some c2, some d =>
              (fun p => (Char.ofNat (4096 * a + 256 * b + 16 * c2 + d) :: p.1, p.2)) <$>
                parseStrBody r3
            | _, _, _, _ => none
          | _ => none
        else none
    else (fun p => (c :: p.1, p.2)) <$> parseStrBody r
termination_by l => l.length
decreasing_by all_goals simp_wf <;> omega

def parseNatAux (acc : Nat) : List Char → Nat × List Char
  | [] => (acc, [])
  | c :: r =>
    if c.isDigit then parseNatAux (acc * 10 + (c.toNat - 48)) r else (acc, c :: r)

def parseVal : List Char → Option (JsVal × List Char)
  | [] => none
  | c :: r =>
    if c = '"' then (fun p => (JsVal.jstr ⟨p.1⟩, p.2)) <$> parseStrBody r
    else if c = 't' then
      match r with
      | 'r' :: 'u' :: 'e' :: r2 => some (.jbool true, r2)
      | _ => none
    else if c = 'f' then
      match r with
      | 'a' :: 'l' :: 's' :: 'e' :: r2 => some (.jbool false, r2)
      | _ => none
    else if c = 'n' then
      match r with
      | 'u' :: 'l' :: 'l' :: r2 => some (.jnull, r2)
      | _ => none
    else if c = '-' then
      match r with
      | d :: _ =>
        if d.isDigit then
          let p := parseNatAux 0 r
          some (.jnum (-(p.1 : Int)), p.2)
        else none
      | [] => none
    else if c.isDigit then
      let p := parseNatAux 0 (c :: r)
      some (.jnum (p.1 : Int), p.2)
    else none

def parseStr (l : List Char) : Option (String × List Char) :=
  match l with
  | '"' :: r => (fun p => ((⟨p.1⟩ : String), p.2)) <$> parseStrBody r
  | _ => none

/-- Decode a nonempty member list followed by the closing brace and the end of
the input.  `fuel` only forces termination; any `fuel ≥ l.length` suffices. -/
def parseEntryList : Nat → List Char → Option (List (String × JsVal))
  | 0, _ => none
  | fuel + 1, l =>
    match parseStr l with
    | none => none
    | some (k, r1) =>
      match r1 with
      | ':' :: r2 =>
        match parseVal r2 with
        | none => none
        | some (v, r3) =>
          match r3 with
          | ',' :: r4 => (fun t => (k, v) :: t) <$> parseEntryList fuel r4
          | ['}'] => some [(k, v)]
          | _ => none
      | _ => none

def parseObjFull (l : List Char) : Option (List (String × JsVal)) :=
  match l with
  | '{' :: r => if r = ['}'] then some [] else parseEntryList r.length r
  | _ => none

/-! ## RateLimiter (src/utils/rate-limiter.ts)

Times are milliseconds since the epoch, modelled as `Int`. -/

structure RateLimitConfig where
  maxRequests : Nat
  windowMs : Int
deriving DecidableEq, Repr

/-- The `RATE_LIMITS` table. -/
def RATE_LIMITS : String → Option RateLimitConfig := fun cat =>
  if cat = "availability" then some ⟨15, 60000⟩
  else if cat = "cdx" then some ⟨10, 60000⟩
  else if cat = "content" then some ⟨5, 60000⟩
  else if cat = "default" then some ⟨10, 60000⟩
  else none

def includesStr (s sub : String) : Bool := decide (sub.data <:+: s.data)

/-- `RateLimiter.getCategory`: substring classification of an endpoint. -/
def getCategory (endpoint : String) : String :=
  if includesStr endpoint "available" then "availability"
  else if includesStr endpoint "cdx" then "cdx"
  else if includesStr endpoint "web/" then "content"
  else "default"

/-- The pruning in `acquire`: keep timestamps with `ts > now - windowMs`. -/
def prune (w : Int) (now : Int) (ts : List Int) : List Int :=
  ts.filter fun t => decide (now - w < t)

/-- One entry into `acquire` at clock value `now`.  After pruning, if the
window is full the source computes `waitTime = oldest + windowMs - now`;
every retained timestamp exceeds `now - windowMs`, so `waitTime > 0`, the
call sleeps and re-enters `acquire` at a strictly later clock value — no
admission happens now (`none`).  Otherwise `now` is appended (`some`). -/
def acquireStep (cfg : RateLimitConfig) (ts : List Int) (now : Int) : Option (List Int) :=
  let pruned := prune cfg.windowMs now ts
  if cfg.maxRequests ≤ pruned.length then none else some (pruned ++ [now])

/-- The in-memory timestamp list as a view of the admission history: after an
admission at time `T` (the last admitted time), the state holds exactly the
admitted timestamps newer than `T - windowMs`. -/
def windowView (w : Int) (admitted : List Int) : List Int :=
  match admitted.getLast? with
  | none => []
  | some T => admitted.filter fun t => decide (T - w < t)

/-- `AcquireTrace cfg admitted state`: a sequence of successful admissions on
one category, with the resulting in-memory timestamp list.  The side
condition `∀ t ∈ admitted, t ≤ now` models `Date.now()` being
non-decreasing over the run (the spec's "insertion order = chronological
order" invariant on the window). -/
inductive AcquireTrace (cfg : RateLimitConfig) : List Int → List Int → Prop where
  | nil : AcquireTrace cfg [] []
  | step {admitted state now state2} :
      AcquireTrace cfg admitted state →
      (∀ t ∈ admitted, t ≤ now) →
      acquireStep cfg state now = some state2 →
      AcquireTrace cfg (admitted ++ [now]) state2

/-! ## WaybackClient.withRetry (src/api/client.ts)

The operation is a deterministic simulated upstream: attempt number to
outcome.  A thrown value either carries a `status` field (the object
`client.fetch` throws, recognized by `isHttpError`) or not (network errors,
`WaybackApiError`s). -/

inductive OpErr where
  | http (status : Int)
  | nonHttp
deriving DecidableEq, Repr

inductive RetryOutcome (A : Type) where
  | ok (v : A)
  /-- a `WaybackApiError` thrown by `withRetry` itself, with its code and the
  status recorded in `details`. -/
  | apiError (code : String) (status : Int)
  /-- `throw lastError` after the loop exhausts. -/
  | rawError (e : OpErr)
  /-- `new Error('Unknown error occurred')`. -/
  | unknownError
deriving DecidableEq, Repr

structure RetryRun (A : Type) where
  outcome : RetryOutcome A
  /-- backoff sleep durations (ms) performed by `withRetry`, in order. -/
  sleeps : List Nat
  /-- number of invocations of the operation. -/
  calls : Nat
deriving DecidableEq, Repr

/-- The retry loop, as a countdown over the remaining iterations `k`
(`attempt + k = maxRetries` throughout; the source's `attempt < maxRetries - 1`
is `0 < k` here).  When `k` reaches `0`, the loop has exhausted and the last
recorded error is thrown. -/
def withRetryGo (op : Nat → Except OpErr A) :
    Nat → Nat → Option OpErr → List Nat → Nat → RetryRun A
  | 0, _, lastErr, sleeps, calls =>
    match lastErr with
    | some e => ⟨.rawError e, sleeps, calls⟩
    | none => ⟨.unknownError, sleeps, calls⟩
  | k + 1, attempt, _, sleeps, calls =>
    match op attempt with
    | .ok v => ⟨.ok v, sleeps, calls + 1⟩
    | .error e =>
      match e with
      | .http s =>
        if s = 429 ∨ s = 503 then
          withRetryGo op k (attempt + 1) (some e) (sleeps ++ [2 ^ attempt * 2000]) (calls + 1)
        else if s = 404 then ⟨.apiError "NOT_FOUND" s, sleeps, calls + 1⟩
        else if 500 ≤ s ∧ 0 < k then
          withRetryGo op k (attempt + 1) (some e) (sleeps ++ [2 ^ attempt * 1000]) (calls + 1)
        else ⟨.apiError "API_ERROR" s, sleeps, calls + 1⟩
      | .nonHttp =>
        if 0 < k then
          withRetryGo op k (attempt + 1) (some e) (sleeps ++ [2 ^ attempt * 1000]) (calls + 1)
        else
          -- the catch block ends; the loop condition fails on the next
          -- iteration and `throw lastError` runs
          ⟨.rawError e, sleeps, calls + 1⟩

def withRetry (op : Nat → Except OpErr A) (maxRetries : Nat) : RetryRun A :=
  withRetryGo op maxRetries 0 none [] 0

/-! ## Cache entries and TTLs (src/cache/cache.ts)

`set` stores `JSON.stringify(data)`; `get` parses it back.  For any
JSON-representable value the round trip is the identity, so the entry holds
the value itself; `JSON.stringify(undefined)` is not a string and the
resulting entry fails to parse on `get` (a corrupt-entry miss). -/

structure CacheEntry where
  data : JsVal
  timestamp : Int
  ttl : Int
deriving DecidableEq, Repr

/-- `ttl || 3600` on the optional `set` argument: absent, `undefined` and the
falsy `0` all fall back to `3600`. -/
def effTtl (ttl : Option Int) : Int :=
  match ttl with
  | some t => if t = 0 then 3600 else t
  | none => 3600

def cacheSet (store : String → Option CacheEntry) (key : String) (v : JsVal)
    (ttl : Option Int) (now : Int) : String → Option CacheEntry := fun k2 =>
  if k2 = key then some ⟨v, now, effTtl ttl⟩ else store k2

/-- `get`: absent, time-expired (`timestamp + ttl*1000 < now`, the entry is
deleted) or unparsable entries yield `null`; only the returned value is
modelled here. -/
def cacheGet (store : String → Option CacheEntry) (key : String) (now : Int) : Option JsVal :=
  match store key with
  | none => none
  | some e =>
    if e.timestamp + e.ttl * 1000 < now then none
    else if e.data = .jsUndefined then none
    else some e.data

/-- The `CACHE_TTL` table (seconds), looked up by property name. -/
def CACHE_TTL : String → Option Int := fun k =>
  if k = "AVAILABILITY" then some 3600
  else if k = "SNAPSHOTS" then some 86400
  else if k = "SNAPSHOT_CONTENT" then some 604800
  else if k = "CDX_QUERIES" then some 43200
  else if k = "BULK_CHECK" then some 3600
  else none

/-- The TTL each data class's `cache.set` call stores, i.e.
`effTtl` of the `CACHE_TTL` property named at the call site.
`getSiteUrls` (src/api/cdx.ts:533) names `CACHE_TTL.SITE_URLS`, which is not
a property of `CACHE_TTL`, so the argument is `undefined`. -/
def storedTtlFor (propName : String) : Int := effTtl (CACHE_TTL propName)

/-! ## CdxApi.getSiteUrls (src/api/cdx.ts)

The upstream body is the parsed JSON row array (header row first, each row a
string array); JavaScript string comparisons on rows are code-unit
comparisons, modelled by `String` order. -/

structure SiteUrl where
  url : String
  firstCapture : String
  lastCapture : String
  captureCount : Nat
  statusCode : String
  mimeType : String
deriving DecidableEq, Repr

/-- `x || d` for the string fields of a row (both `undefined` — a missing
array slot, modelled as `""` by `getD` — and the empty string are falsy). -/
def orDefault (s d : String) : String := if s = "" then d else s

/-- Resume-key detection (cdx.ts:428-441): if the response's last element is
a two-element array whose first element is `''`, it is the resumption key and
`rows` is `result.slice(1, -1)`; otherwise `rows` is `result.slice(1)`. -/
def splitResumeKey (result : List (List String)) : Option String × List (List String) :=
  if 0 < result.length then
    let lastRow := result.getLastD []
    -- `lastRow.length === 2 && lastRow[0] === ''`; the default "x" stands for
    -- the `undefined` an out-of-range index yields, which is ≠ ''
    if lastRow.length = 2 ∧ lastRow.getD 0 "x" = "" then
      (some (lastRow.getD 1 ""), (result.drop 1).dropLast)
    else (none, result.drop 1)
  else (none, [])

/-- `truncated: !!resumeKey` (an empty-string key is falsy). -/
def truncatedFlag (rk : Option String) : Bool :=
  match rk with
  | some k => k != ""
  | none => false

structure UrlAgg where
  timestamps : List String
  statusCode : String
  mimeType : String
deriving DecidableEq, Repr

/-- `urlMap.get(original)!.timestamps.push(timestamp)`. -/
def addTs (m : List (String × UrlAgg)) (url ts : String) : List (String × UrlAgg) :=
  m.map fun kv =>
    if kv.1 = url then (kv.1, ⟨kv.2.timestamps ++ [ts], kv.2.statusCode, kv.2.mimeType⟩) else kv

/-- The row loop of `aggregateByUrl`: a `Map` in insertion order; a first
occurrence of a URL registers its status/MIME, every occurrence appends the
row's timestamp. -/
def buildUrlMap : List (List String) → List (String × UrlAgg) → List (String × UrlAgg)
  | [], m => m
  | row :: rest, m =>
    let original := row.getD 0 ""
    let timestamp := row.getD 1 ""
    let statuscode := row.getD 2 ""
    let mimetype := row.getD 3 ""
    let m2 := if (m.lookup original).isSome then m
      else m ++ [(original, ⟨[], orDefault statuscode "200", orDefault mimetype "text/html"⟩)]
    buildUrlMap rest (addTs m2 original timestamp)

/-- `aggregateByUrl` (cdx.ts:550-591): group rows by original URL, sort each
URL's timestamps, emit first/last/count per URL, total the captures, and sort
descending by capture count (`(a, b) => b.captureCount - a.captureCount`,
stable). -/
def aggregateByUrl (rows : List (List String)) : List SiteUrl × Nat :=
  let m := buildUrlMap rows []
  let urls := m.map fun kv =>
    let sorted := sortS strLe kv.2.timestamps
    { url := kv.1, firstCapture := sorted.headD "", lastCapture := sorted.getLastD "",
      captureCount := sorted.length, statusCode := kv.2.statusCode,
      mimeType := kv.2.mimeType }
  let total := (m.map fun kv => kv.2.timestamps.length).sum
  (sortS (fun a b => decide (b.captureCount ≤ a.captureCount)) urls, total)

inductive SortKey where
  | oldest
  | newest
  | captures
  | urlkey
deriving DecidableEq, Repr

/-- The `switch (params.sortBy)` (cdx.ts:476-489); `urlkey` has no case and
leaves the current order. -/
def applySort (sortBy : Option SortKey) (urls : List SiteUrl) : List SiteUrl :=
  match sortBy with
  | none => urls
  | some .oldest => sortS (fun a b => strLe a.firstCapture b.firstCapture) urls
  | some .newest => sortS (fun a b => strLe b.lastCapture a.lastCapture) urls
  | some .captures => sortS (fun a b => decide (b.captureCount ≤ a.captureCount)) urls
  | some .urlkey => urls

/-- `if (params.limit && siteUrls.length > params.limit) siteUrls.slice(0, limit)`
(a `limit` of `0` is falsy and disables the cut). -/
def applyLimit (limit : Option Nat) (urls : List SiteUrl) : List SiteUrl :=
  match limit with
  | some l => if l ≠ 0 ∧ l < urls.length then urls.take l else urls
  | none => urls

structure SiteUrlsParams where
  limit : Option Nat
  sortBy : Option SortKey
  includeCaptureCounts : Bool
deriving DecidableEq, Repr

/-- The row-processing pipeline of `getSiteUrls` after resume-key stripping
(cdx.ts:443-489): aggregate (or map the already-collapsed rows), apply the
limit, then apply the requested sort; the pair carries `totalCaptures`. -/
def getSiteUrlsProcess (params : SiteUrlsParams) (rows : List (List String)) :
    List SiteUrl × Nat :=
  if params.includeCaptureCounts then
    let agg := aggregateByUrl rows
    let limited := applyLimit params.limit agg.1
    (applySort params.sortBy limited, agg.2)
  else
    let urls := rows.map fun row =>
      { url := row.getD 0 "", firstCapture := row.getD 1 "", lastCapture := row.getD 1 "",
        captureCount := 1, statusCode := orDefault (row.getD 2 "") "200",
        mimeType := orDefault (row.getD 3 "") "text/html" : SiteUrl }
    let limited := applyLimit params.limit urls
    (applySort params.sortBy limited, rows.length)

/-- Modelled from the spec: "Apply the requested result limit only after
aggregation/sorting, never before."  The same pipeline with the limit applied
after the requested sort, for comparison with `getSiteUrlsProcess`. -/
def getSiteUrlsSpecOrder (params : SiteUrlsParams) (rows : List (List String)) :
    List SiteUrl × Nat :=
  if params.includeCaptureCounts then
    let agg := aggregateByUrl rows
    (applyLimit params.limit (applySort params.sortBy agg.1), agg.2)
  else
    let urls := rows.map fun row =>
      { url := row.getD 0 "", firstCapture := row.getD 1 "", lastCapture := row.getD 1 "",
        captureCount := 1, statusCode := orDefault (row.getD 2 "") "200",
        mimeType := orDefault (row.getD 3 "") "text/html" : SiteUrl }
    (applyLimit params.limit (applySort params.sortBy urls), rows.length)

/-! ## AvailabilityApi.checkAvailability (src/api/availability.ts)

The two upstream sources are oracles from the queried URL string: the
Availability endpoint's `archived_snapshots.closest` record (or none), and
the CDX fallback's parsed row array.  The query timestamp is fixed over one
`checkAvailability` call, so it is folded into the oracles.  The
presentational `formattedDate` field is omitted from the snapshot record. -/

structure ClosestSnap where
  available : Bool
  url : String
  timestamp : String
  status : String
deriving DecidableEq, Repr

structure SnapRef where
  url : String
  timestamp : String
  status : String
deriving DecidableEq, Repr

structure AvailabilityResponse where
  url : String
  isArchived : Bool
  closestSnapshot : Option SnapRef
  archiveOrgUrl : String
  checkedVariant : Option String
deriving DecidableEq, Repr

/-- `checkCdxFallback` (availability.ts:112-167) applied to the parsed CDX
response: a result with a data row of at least two fields after the header
synthesizes an archived response. -/
def checkCdxFallback (cdxResult : List (List String)) (url : String) :
    Option AvailabilityResponse :=
  if 1 < cdxResult.length then
    let dataRow := cdxResult.getD 1 []
    if 2 ≤ dataRow.length then
      let ts := dataRow.getD 0 ""
      let original := dataRow.getD 1 ""
      let statusCode := dataRow.getD 2 ""
      some { url := url, isArchived := true,
             closestSnapshot :=
               some ⟨"https://web.archive.org/web/" ++ ts ++ "/" ++ original, ts,
                     orDefault statusCode "200"⟩,
             archiveOrgUrl := "https://web.archive.org/web/*/" ++ url,
             checkedVariant := none }
    else none
  else none

/-- `checkAvailabilityInternal` (availability.ts:56-106) on a cache miss:
query the primary source, then fall back to the CDX point query when the
primary result is not archived. -/
def checkAvailabilityInternal (prim : String → Option ClosestSnap)
    (cdx : String → List (List String)) (url : String) : AvailabilityResponse :=
  let closest := prim url
  let resp : AvailabilityResponse :=
    { url := url,
      isArchived := match closest with | some c => c.available | none => false,
      closestSnapshot := closest.map fun c => ⟨c.url, c.timestamp, c.status⟩,
      archiveOrgUrl := "https://web.archive.org/web/*/" ++ url,
      checkedVariant := none }
  if resp.isArchived then resp
  else
    match checkCdxFallback (cdx url) url with
    | some r => r
    | none => resp

/-- The `scheme://host/path` fragment of `new URL` that `getWwwVariant`
exercises: an `http`/`https` URL with a nonempty host and no userinfo/port. -/
def parseHttpUrl (s : String) : Option (Bool × String × String) :=
  let d := s.data
  if "https://".data.isPrefixOf d then
    let rest := d.drop 8
    let host := rest.takeWhile fun c => c != '/'
    let path := rest.dropWhile fun c => c != '/'
    if host = [] then none else some (true, ⟨host⟩, ⟨path⟩)
  else if "http://".data.isPrefixOf d then
    let rest := d.drop 7
    let host := rest.takeWhile fun c => c != '/'
    let path := rest.dropWhile fun c => c != '/'
    if host = [] then none else some (false, ⟨host⟩, ⟨path⟩)
  else none

/-- `URL#toString`: an empty path serializes as `/`. -/
def urlToString (secure : Bool) (host path : String) : String :=
  (if secure then "https://" else "http://") ++ host ++ (if path = "" then "/" else path)

/-- `getWwwVariant` (availability.ts:172-186): toggle a leading `www.` on the
hostname; `null` when the URL does not parse. -/
def getWwwVariant (url : String) : Option String :=
  match parseHttpUrl url with
  | some (sec, host, path) =>
    if "www.".data.isPrefixOf host.data then
      some (urlToString sec ⟨host.data.drop 4⟩ path)
    else some (urlToString sec ("www." ++ host) path)
  | none => none

/-- `checkAvailability` (availability.ts:29-51): check the URL; when it is
not archived and variant checking is on (`checkWwwVariant !== false`), check
the `www` variant and, if archived, relabel its result under the requested
URL with `checkedVariant` set to the variant actually found. -/
def checkAvailability (prim : String → Option ClosestSnap)
    (cdx : String → List (List String)) (url : String) (checkWwwVariant : Bool) :
    AvailabilityResponse :=
  let response := checkAvailabilityInternal prim cdx url
  if ¬response.isArchived ∧ checkWwwVariant then
    match getWwwVariant url with
    | some alternateUrl =>
      let alternateResult := checkAvailabilityInternal prim cdx alternateUrl
      if alternateResult.isArchived then
        { alternateResult with
          url := url,
          archiveOrgUrl := "https://web.archive.org/web/*/" ++ url,
          checkedVariant := some alternateUrl }
      else response
    | none => response
  else response

/-! ## DiffService.compareSnapshots (src/api/diff.ts)

The two fetched snapshot contents arrive as already-parsed `ParsedContent`
records (`getParsedContent` output); `structuredTypes` is the
`getStructuredDataTypes` view of the structured data.  The external `diff`
library's `diffLines` and `createPatch` are taken as oracles (`dl`, `cp`);
they are only consulted when the two texts differ. -/

structure LinkRef where
  href : String
  isExternal : Bool
deriving DecidableEq, Repr

structure ParsedContent where
  title : String
  metaDescription : String
  h1 : List String
  h2 : List String
  textContent : String
  links : List LinkRef
  canonicalUrl : String
  robots : String
  structuredTypes : List String
deriving DecidableEq, Repr

/-- `arraysEqual` (utils/html-parser.ts): same length and pointwise equal,
i.e. list equality. -/
def arraysEqual (a b : List String) : Bool := a == b

/-- `text.split(/\s+/).filter(w => w.length > 0).length`. -/
def countWords (s : String) : Nat :=
  ((s.split fun c => c.isWhitespace).filter fun w => w.length > 0).length

/-- `truncateText` (utils/html-parser.ts). -/
def truncateText (text : String) (maxLength : Nat) : String :=
  if text.length ≤ maxLength then text else text.take maxLength ++ "..."

/-- One change object from the `diff` library's `diffLines`. -/
structure DiffChunk where
  added : Bool
  removed : Bool
  value : String
deriving DecidableEq, Repr

/-- `Math.round(x)` on an exact rational (JavaScript rounds half toward +∞). -/
def jsRound (q : ℚ) : Int := ⌊q + 1 / 2⌋

structure ContentChange where
  changed : Bool
  wordCountBefore : Nat
  wordCountAfter : Nat
  wordCountDelta : Int
  /-- `Math.round(percentChange * 100) / 100`, kept as an exact rational. -/
  percentChange : ℚ
  addedSections : List String
  removedSections : List String
  diff : Option String
deriving DecidableEq, Repr

/-- `compareContent` (diff.ts:181-225). -/
def compareContent (dl : String → String → List DiffChunk)
    (cp : String → String → String) (before after : String) (showDiff : Bool) :
    ContentChange :=
  let wordsBefore := countWords before
  let wordsAfter := countWords after
  let wordDelta : Int := (wordsAfter : Int) - (wordsBefore : Int)
  let percentChange : ℚ := if 0 < wordsBefore then (wordDelta : ℚ) / (wordsBefore : ℚ) * 100 else 0
  let base : ContentChange :=
    { changed := before ≠ after, wordCountBefore := wordsBefore, wordCountAfter := wordsAfter,
      wordCountDelta := wordDelta,
      percentChange := (jsRound (percentChange * 100) : ℚ) / 100,
      addedSections := [], removedSections := [], diff := none }
  if showDiff ∧ before ≠ after then
    { base with
      diff := some (cp before after),
      addedSections :=
        (((dl before after).filter fun ch => ch.added ∧ 50 < ch.value.trim.length).map
          fun ch => truncateText ch.value.trim 200).take 5,
      removedSections :=
        (((dl before after).filter fun ch => ch.removed ∧ 50 < ch.value.trim.length).map
          fun ch => truncateText ch.value.trim 200).take 5 }
  else base

structure LinksChange where
  changed : Bool
  addedLinks : List String
  removedLinks : List String
  internalDelta : Int
  externalDelta : Int
deriving DecidableEq, Repr

/-- `new Set(xs)` then spread: first occurrences in insertion order. -/
def dedupL (l : List String) : List String :=
  l.foldl (fun acc h => if h ∈ acc then acc else acc ++ [h]) []

/-- `compareLinks` (diff.ts:230-249). -/
def compareLinks (before after : ParsedContent) : LinksChange :=
  let beforeHrefs := dedupL (before.links.map LinkRef.href)
  let afterHrefs := dedupL (after.links.map LinkRef.href)
  let addedLinks := afterHrefs.filter fun h => h ∉ beforeHrefs
  let removedLinks := beforeHrefs.filter fun h => h ∉ afterHrefs
  { changed := 0 < addedLinks.length ∨ 0 < removedLinks.length,
    addedLinks := addedLinks.take 10, removedLinks := removedLinks.take 10,
    internalDelta := ((after.links.filter fun l => ¬l.isExternal).length : Int) -
      ((before.links.filter fun l => ¬l.isExternal).length : Int),
    externalDelta := ((after.links.filter LinkRef.isExternal).length : Int) -
      ((before.links.filter LinkRef.isExternal).length : Int) }

structure StructChange where
  changed : Bool
  schemaMarkupBefore : List String
  schemaMarkupAfter : List String
  canonicalChanged : Bool
  robotsChanged : Bool
deriving DecidableEq, Repr

/-- `compareStructure` (diff.ts:254-267). -/
def compareStructure (before after : ParsedContent) : StructChange :=
  { changed := before.canonicalUrl ≠ after.canonicalUrl ∨ before.robots ≠ after.robots ∨
      ¬arraysEqual before.structuredTypes after.structuredTypes,
    schemaMarkupBefore := before.structuredTypes,
    schemaMarkupAfter := after.structuredTypes,
    canonicalChanged := before.canonicalUrl ≠ after.canonicalUrl,
    robotsChanged := before.robots ≠ after.robots }

structure FieldChange where
  changed : Bool
  before : String
  after : String
deriving DecidableEq, Repr

structure HeadingsChange where
  h1Changed : Bool
  h2Changed : Bool
  beforeH1 : List String
  beforeH2 : List String
  afterH1 : List String
  afterH2 : List String
deriving DecidableEq, Repr

/-- The `changes` object of `compareSnapshots`; each field is a key of the
map, present exactly when assigned (`structureChange` models the key named
`structure`). -/
structure SnapshotChanges where
  title : Option FieldChange
  metaDescription : Option FieldChange
  headings : Option HeadingsChange
  content : Option ContentChange
  links : Option LinksChange
  structureChange : Option StructChange
deriving DecidableEq, Repr

/-- `Object.keys(changes).length`. -/
def changesKeyCount (c : SnapshotChanges) : Nat :=
  (if c.title.isSome then 1 else 0) + (if c.metaDescription.isSome then 1 else 0) +
    (if c.headings.isSome then 1 else 0) + (if c.content.isSome then 1 else 0) +
    (if c.links.isSome then 1 else 0) + (if c.structureChange.isSome then 1 else 0)

/-- `compareAll || params.compareElements?.includes(name)` where
`compareAll = params.compareElements?.includes('all') ?? true`. -/
def elemCond (ce : Option (List String)) (name : String) : Bool :=
  (match ce with | some l => l.contains "all" | none => true) ||
    (match ce with | some l => l.contains name | none => false)

/-- The change-detection core of `compareSnapshots` (diff.ts:38-122): the
`changes` map and the `hasChanges` flag
(`hasChanges = Object.keys(changes).length > 0`).  The surrounding response
(timestamps, day count, summary) carries no further comparison logic. -/
def compareSnapshots (dl : String → String → List DiffChunk)
    (cp : String → String → String) (ce : Option (List String))
    (showDiff : Option Bool) (content1 content2 : ParsedContent) :
    SnapshotChanges × Bool :=
  let changes : SnapshotChanges :=
    { title :=
        if elemCond ce "title" ∧ content1.title ≠ content2.title then
          some ⟨true, content1.title, content2.title⟩
        else none,
      metaDescription :=
        if elemCond ce "description" ∧ content1.metaDescription ≠ content2.metaDescription then
          some ⟨true, content1.metaDescription, content2.metaDescription⟩
        else none,
      headings :=
        if elemCond ce "headings" ∧
            (¬arraysEqual content1.h1 content2.h1 ∨ ¬arraysEqual content1.h2 content2.h2) then
          some ⟨¬arraysEqual content1.h1 content2.h1, ¬arraysEqual content1.h2 content2.h2,
            content1.h1, content1.h2, content2.h1, content2.h2⟩
        else none,
      content :=
        if elemCond ce "content" then
          some (compareContent dl cp content1.textContent content2.textContent
            (showDiff.getD true))
        else none,
      links := if elemCond ce "links" then some (compareLinks content1 content2) else none,
      structureChange :=
        if elemCond ce "structure" then some (compareStructure content1 content2) else none }
  (changes, 0 < changesKeyCount changes)

theorem parseHexDigit_hexDigit : ∀ d : Nat, d < 16 → parseHexDigit (hexDigit d) = some d := by
  decide

theorem parseHexDigit_zero : parseHexDigit '0' = some 0 := by
  decide

theorem parseStrBody_esc (c : Char) (rest : List Char) :
    parseStrBody (escChar c ++ rest) = (fun p => (c :: p.1, p.2)) <$> parseStrBody rest := by
  unfold escChar
  by_cases h1 : c = '"'
  · subst h1
    conv_lhs => rw [parseStrBody.eq_def]
    simp
  by_cases h2 : c = '\\'
  · subst h2
    conv_lhs => rw [parseStrBody.eq_def]
    simp
  by_cases h3 : c = Char.ofNat 8
  · subst h3
    conv_lhs => rw [parseStrBody.eq_def]
    simp
  by_cases h4 : c = Char.ofNat 9
  · subst h4
    conv_lhs => rw [parseStrBody.eq_def]
    simp
  by_cases h5 : c = Char.ofNat 10
  · subst h5
    conv_lhs => rw [parseStrBody.eq_def]
    simp
  by_cases h6 : c = Char.ofNat 12
  · subst h6
    conv_lhs => rw [parseStrBody.eq_def]
    simp
  by_cases h7 : c = Char.ofNat 13
  · subst h7
    conv_lhs => rw [parseStrBody.eq_def]
    simp
  by_cases h8 : c.toNat < 32
  · have hdiv : c.toNat / 16 < 16 := by omega
    have hmod : c.toNat % 16 < 16 := Nat.mod_lt _ (by omega)
    simp only [if_neg h1, if_neg h2, if_neg h3, if_neg h4, if_neg h5, if_neg h6, if_neg h7,
      if_pos h8, List.cons_append, List.nil_append]
    conv_lhs => rw [parseStrBody.eq_def]
    simp only [parseHexDigit_hexDigit _ hdiv, parseHexDigit_hexDigit _ hmod, parseHexDigit_zero]
    simp [Nat.div_add_mod, Char.ofNat_toNat]
  · simp only [if_neg h1, if_neg h2, if_neg h3, if_neg h4, if_neg h5, if_neg h6, if_neg h7,
      if_neg h8, List.cons_append, List.nil_append]
    conv_lhs => rw [parseStrBody.eq_def]
    simp [h1, h2]

theorem parseStrBody_escapeL (l : List Char) (rest : List Char) :
    parseStrBody (escapeL l ++ ('"' :: rest)) = some (l, rest) := by
  induction l with
  | nil =>
    have h0 : escapeL [] = [] := rfl
    rw [h0, List.nil_append, parseStrBody.eq_def]
    simp
  | cons c t ih =>
    have h0 : escapeL (c :: t) = escChar c ++ escapeL t := by
      simp [escapeL]
    rw [h0, List.append_assoc, parseStrBody_esc, ih]
    rfl

theorem toNat_digitChar (d : Nat) (hd : d < 10) : (Char.ofNat (48 + d)).toNat = 48 + d := by
  interval_cases d <;> decide

theorem isDigit_digitChar (d : Nat) (hd : d < 10) : (Char.ofNat (48 + d)).isDigit = true := by
  interval_cases d <;> decide

theorem natDec_ne_nil (n : Nat) : natDec n ≠ [] := by
  rw [natDec]
  split <;> simp

theorem natDec_digits (n : Nat) : ∀ c ∈ natDec n, c.isDigit = true := by
  induction n using natDec.induct with
  | case1 n h =>
    intro c hc
    rw [natDec, dif_pos h] at hc
    simp at hc
    subst hc
    exact isDigit_digitChar n h
  | case2 n h ih =>
    intro c hc
    rw [natDec, dif_neg h] at hc
    rcases List.mem_append.mp hc with h1 | h1
    · exact ih c h1
    · simp at h1
      subst h1
      exact isDigit_digitChar _ (Nat.mod_lt _ (by omega))

theorem foldl_natDec (n : Nat) :
    List.foldl (fun a c => a * 10 + (c.toNat - 48)) 0 (natDec n) = n := by
  induction n using natDec.induct with
  | case1 n h =>
    rw [natDec, dif_pos h]
    simp [toNat_digitChar n h]
  | case2 n h ih =>
    rw [natDec, dif_neg h, List.foldl_append, ih]
    simp [toNat_digitChar _ (Nat.mod_lt n (by omega))]
    omega

theorem parseNatAux_spec (ds : List Char) (hds : ∀ c ∈ ds, c.isDigit = true)
    (rest : List Char) (hrest : ∀ c, rest.head? = some c → c.isDigit = false) :
    ∀ acc, parseNatAux acc (ds ++ rest) =
      (List.foldl (fun a c => a * 10 + (c.toNat - 48)) acc ds, rest) := by
  induction ds with
  | nil =>
    intro acc
    cases rest with
    | nil => simp [parseNatAux]
    | cons c r =>
      have hc : c.isDigit = false := hrest c rfl
      simp [parseNatAux, hc]
  | cons c t ih =>
    intro acc
    have hc : c.isDigit = true := hds c (List.mem_cons_self c t)
    simp only [List.cons_append, parseNatAux, hc, if_pos, List.foldl_cons, List.append_eq]
    exact ih (fun d hd => hds d (List.mem_cons_of_mem c hd)) (acc * 10 + (c.toNat - 48))

theorem digit_not_special (c : Char) (h : c.isDigit = true) :
    c ≠ '"' ∧ c ≠ 't' ∧ c ≠ 'f' ∧ c ≠ 'n' ∧ c ≠ '-' := by
  refine ⟨?_, ?_, ?_, ?_, ?_⟩ <;> (intro heq; subst heq; exact absurd h (by decide))

theorem parseVal_ser (v : JsVal) (hv : v ≠ .jsUndefined) (rest : List Char)
    (hrest : ∀ c, rest.head? = some c → c.isDigit = false) :
    parseVal (serVal v ++ rest) = some (v, rest) := by
  cases v with
  | jstr s =>
    have hshape : serVal (.jstr s) ++ rest = '"' :: (escapeL s.data ++ ('"' :: rest)) := by
      simp [serVal]
    rw [hshape, parseVal.eq_def]
    simp [parseStrBody_escapeL]
  | jnum n =>
    by_cases hn : n < 0
    · have hshape : serVal (.jnum n) ++ rest = '-' :: (natDec (-n).toNat ++ rest) := by
        simp [serVal, intDec, if_pos hn]
      obtain ⟨d, ds, hds⟩ := List.exists_cons_of_ne_nil (natDec_ne_nil (-n).toNat)
      have hd : d.isDigit = true := natDec_digits _ d (by rw [hds]; exact List.mem_cons_self _ _)
      have hspec := parseNatAux_spec (d :: ds) (by rw [← hds]; exact natDec_digits _) rest hrest 0
      rw [List.cons_append] at hspec
      rw [hshape, hds, parseVal.eq_def]
      simp only [List.cons_append]
      simp [hd, hspec]
      have hfold : List.foldl (fun a c => a * 10 + (c.toNat - 48)) (d.toNat - 48) ds
          = (-n).toNat := by
        have h2 := foldl_natDec (-n).toNat
        rw [hds] at h2
        simpa using h2
      rw [hfold]
      omega
    · have hshape : serVal (.jnum n) ++ rest = natDec n.toNat ++ rest := by
        simp [serVal, intDec, if_neg hn]
      obtain ⟨d, ds, hds⟩ := List.exists_cons_of_ne_nil (natDec_ne_nil n.toNat)
      have hd : d.isDigit = true := natDec_digits _ d (by rw [hds]; exact List.mem_cons_self _ _)
      obtain ⟨hq, ht, hf, hnn, hm⟩ := digit_not_special d hd
      have hspec := parseNatAux_spec (d :: ds) (by rw [← hds]; exact natDec_digits _) rest hrest 0
      rw [List.cons_append] at hspec
      rw [hshape, hds, parseVal.eq_def]
      simp only [List.cons_append]
      simp [hq, ht, hf, hnn, hm, hd, hspec]
      have hfold : List.foldl (fun a c => a * 10 + (c.toNat - 48)) (d.toNat - 48) ds
          = n.toNat := by
        have h2 := foldl_natDec n.toNat
        rw [hds] at h2
        simpa using h2
      rw [hfold]
      omega
  | jbool b =>
    cases b <;> (rw [parseVal.eq_def]; simp [serVal])
  | jnull =>
    rw [parseVal.eq_def]
    simp [serVal]
  | jsUndefined => exact absurd rfl hv

theorem parseStr_escaped (k : String) (rest : List Char) :
    parseStr ('"' :: (escapeL k.data ++ ('"' :: rest))) = some (k, rest) := by
  rw [parseStr]
  simp [parseStrBody_escapeL]

theorem serEntry_shape (kv : String × JsVal) (rest : List Char) :
    serEntry kv ++ rest =
      '"' :: (escapeL kv.1.data ++ ('"' :: (':' :: (serVal kv.2 ++ rest)))) := by
  simp [serEntry]

theorem joinComma_single (x : List Char) : joinComma [x] = x := rfl

theorem joinComma_cons2 (x y : List Char) (t : List (List Char)) :
    joinComma (x :: y :: t) = x ++ ',' :: joinComma (y :: t) := rfl

theorem parseEntryList_ser (l : List (String × JsVal)) :
    ∀ fuel : Nat, l ≠ [] → (∀ kv ∈ l, kv.2 ≠ .jsUndefined) → l.length ≤ fuel →
      parseEntryList fuel (joinComma (l.map serEntry) ++ ['}']) = some l := by
  induction l with
  | nil => intro fuel h; exact absurd rfl h
  | cons kv t ih =>
    intro fuel _ hv hfuel
    cases fuel with
    | zero => simp at hfuel
    | succ f =>
      cases t with
      | nil =>
        have hshape : joinComma ([kv].map serEntry) ++ ['}'] =
            '"' :: (escapeL kv.1.data ++ ('"' :: (':' :: (serVal kv.2 ++ ['}'])))) := by
          rw [List.map_cons, List.map_nil, joinComma_single, serEntry_shape]
        rw [hshape, parseEntryList, parseStr_escaped]
        simp [parseVal_ser kv.2 (hv kv (List.mem_cons_self _ _)) ['}']
          (by intro c hc; simp at hc; subst hc; decide)]
      | cons kv2 t2 =>
        have hshape : joinComma ((kv :: kv2 :: t2).map serEntry) ++ ['}'] =
            '"' :: (escapeL kv.1.data ++ ('"' :: (':' :: (serVal kv.2 ++
              (',' :: (joinComma ((kv2 :: t2).map serEntry) ++ ['}'])))))) := by
          simp only [List.map_cons]
          rw [joinComma_cons2, List.append_assoc, List.cons_append, serEntry_shape]
        have ht : parseEntryList f (joinComma ((kv2 :: t2).map serEntry) ++ ['}']) =
            some (kv2 :: t2) :=
          ih f (by simp) (fun x hx => hv x (List.mem_cons_of_mem kv hx)) (by simpa using hfuel)
        have hpv := parseVal_ser kv.2 (hv kv (List.mem_cons_self _ _))
          (',' :: (joinComma ((kv2 :: t2).map serEntry) ++ ['}']))
          (by intro c hc; simp at hc; subst hc; decide)
        rw [hshape, parseEntryList, parseStr_escaped]
        simp only [List.map_cons] at hpv ht ⊢
        simp [hpv, ht]

theorem serEntry_length_pos (kv : String × JsVal) : 1 ≤ (serEntry kv).length := by
  simp [serEntry]

theorem joinComma_length (l : List (String × JsVal)) :
    l.length ≤ (joinComma (l.map serEntry)).length := by
  induction l with
  | nil => simp [joinComma]
  | cons kv t ih =>
    cases t with
    | nil =>
      rw [List.map_cons, List.map_nil, joinComma_single]
      simpa using serEntry_length_pos kv
    | cons kv2 t2 =>
      simp only [List.map_cons] at ih ⊢
      rw [joinComma_cons2]
      have h1 := serEntry_length_pos kv
      simp only [List.length_append, List.length_cons]
      simp only [List.length_cons] at ih
      omega

theorem parseObjFull_serObj (l : List (String × JsVal))
    (hv : ∀ kv ∈ l, kv.2 ≠ .jsUndefined) :
    parseObjFull (serObj l) = some l := by
  cases l with
  | nil => rfl
  | cons kv t =>
    rw [serObj, parseObjFull]
    have hhead : (joinComma ((kv :: t).map serEntry) ++ ['}']).head? = some '"' := by
      rw [List.map_cons]
      cases t with
      | nil => rw [List.map_nil, joinComma_single, serEntry_shape]; rfl
      | cons kv2 t2 =>
        simp only [List.map_cons]
        rw [joinComma_cons2, List.append_assoc, List.cons_append, serEntry_shape]
        rfl
    have hne : joinComma ((kv :: t).map serEntry) ++ ['}'] ≠ ['}'] := by
      intro h
      rw [h] at hhead
      simp at hhead
    rw [if_neg hne]
    apply parseEntryList_ser (kv :: t) _ (by simp) hv
    have hlen := joinComma_length (kv :: t)
    simp only [List.length_cons] at hlen ⊢
    simp only [List.length_append, List.length_cons, List.length_nil]
    omega

/-- `serObj` is injective on lists whose values are all defined. -/
theorem serObj_inj {l1 l2 : List (String × JsVal)}
    (h1 : ∀ kv ∈ l1, kv.2 ≠ .jsUndefined) (h2 : ∀ kv ∈ l2, kv.2 ≠ .jsUndefined)
    (h : serObj l1 = serObj l2) : l1 = l2 := by
  have e1 := parseObjFull_serObj l1 h1
  have e2 := parseObjFull_serObj l2 h2
  rw [h, e2] at e1
  exact (Option.some.injEq _ _ ▸ e1).symm

/-! ## Properties of the stable sort and of the canonicalization -/

theorem insertS_perm (le : α → α → Bool) (x : α) (l : List α) :
    (insertS le x l).Perm (x :: l) := by
  induction l with
  | nil => exact List.Perm.refl _
  | cons y ys ih =>
    rw [insertS]
    split
    · exact (List.Perm.cons y ih).trans (List.Perm.swap x y ys)
    · exact List.Perm.refl _

theorem sortS_perm (le : α → α → Bool) (l : List α) : (sortS le l).Perm l := by
  induction l with
  | nil => exact List.Perm.refl _
  | cons x xs ih => exact (insertS_perm le x (sortS le xs)).trans (List.Perm.cons x ih)

theorem insertS_pairwise {le : α → α → Bool}
    (htot : ∀ a b, le a b = true ∨ le b a = true)
    (htrans : ∀ a b c, le a b = true → le b c = true → le a c = true)
    (x : α) {l : List α} (hl : l.Pairwise (fun a b => le a b = true)) :
    (insertS le x l).Pairwise (fun a b => le a b = true) := by
  induction l with
  | nil => simp [insertS]
  | cons y ys ih =>
    rw [List.pairwise_cons] at hl
    obtain ⟨hy, hys⟩ := hl
    rw [insertS]
    split
    · rename_i hcase
      rw [Bool.and_eq_true, Bool.not_eq_eq_eq_not, Bool.not_true] at hcase
      refine List.pairwise_cons.mpr ⟨?_, ih hys⟩
      intro z hz
      have hz2 : z ∈ x :: ys := (insertS_perm le x ys).mem_iff.mp hz
      rcases List.mem_cons.mp hz2 with hz1 | hz1
      · subst hz1; exact hcase.1
      · exact hy z hz1
    · rename_i hcase
      have hxy : le x y = true := by
        rcases htot x y with h | h
        · exact h
        · by_cases hxy2 : le x y = true
          · exact hxy2
          · simp [h, hxy2] at hcase
      refine List.pairwise_cons.mpr ⟨?_, List.pairwise_cons.mpr ⟨hy, hys⟩⟩
      intro z hz
      rcases List.mem_cons.mp hz with hz1 | hz1
      · subst hz1; exact hxy
      · exact htrans x y z hxy (hy z hz1)

theorem sortS_pairwise {le : α → α → Bool}
    (htot : ∀ a b, le a b = true ∨ le b a = true)
    (htrans : ∀ a b c, le a b = true → le b c = true → le a c = true)
    (l : List α) : (sortS le l).Pairwise (fun a b => le a b = true) := by
  induction l with
  | nil => simp [sortS]
  | cons x xs ih => exact insertS_pairwise htot htrans x ih

theorem strLtL_asymm : ∀ x y : List Char, strLtL x y = true → strLtL y x = false := by
  intro x
  induction x with
  | nil => intro y h; cases y <;> rfl
  | cons a as ih =>
    intro y h
    cases y with
    | nil => simp [strLtL] at h
    | cons b bs =>
      rw [strLtL] at h ⊢
      split_ifs at h ⊢ <;> first | rfl | omega | exact ih bs h

theorem strLtL_connect : ∀ x y : List Char, strLtL x y = false → strLtL y x = false →
    x = y := by
  intro x
  induction x with
  | nil =>
    intro y h _
    cases y with
    | nil => rfl
    | cons b bs => simp [strLtL] at h
  | cons a as ih =>
    intro y h h2
    cases y with
    | nil => simp [strLtL] at h2
    | cons b bs =>
      rw [strLtL] at h h2
      by_cases hab : a.toNat < b.toNat
      · rw [if_pos hab] at h
        simp at h
      · by_cases hba : b.toNat < a.toNat
        · rw [if_pos hba] at h2
          simp at h2
        · rw [if_neg hab, if_neg hba] at h
          rw [if_neg hba, if_neg hab] at h2
          have heq : a = b := by
            have hnn : a.toNat = b.toNat := by omega
            rw [← Char.ofNat_toNat a, hnn, Char.ofNat_toNat]
          rw [heq, ih bs h h2]

theorem strLtL_trans : ∀ x y z : List Char, strLtL x y = true → strLtL y z = true →
    strLtL x z = true := by
  intro x
  induction x with
  | nil =>
    intro y z h1 h2
    cases y with
    | nil => exact h2
    | cons b bs =>
      cases z with
      | nil => simp [strLtL] at h2
      | cons c cs => rfl
  | cons a as ih =>
    intro y z h1 h2
    cases y with
    | nil => simp [strLtL] at h1
    | cons b bs =>
      cases z with
      | nil => simp [strLtL] at h2
      | cons c cs =>
        rw [strLtL] at h1 h2 ⊢
        split_ifs at h1 h2 ⊢ <;> first | rfl | omega | exact ih bs cs h1 h2

theorem strLe_total (a b : String) : strLe a b = true ∨ strLe b a = true := by
  unfold strLe
  rcases hba : strLtL b.data a.data with _ | _
  · exact Or.inl rfl
  · rcases hab : strLtL a.data b.data with _ | _
    · exact Or.inr rfl
    · have := strLtL_asymm _ _ hab
      rw [this] at hba
      simp at hba

theorem strLe_trans (a b c : String) (h1 : strLe a b = true) (h2 : strLe b c = true) :
    strLe a c = true := by
  unfold strLe at h1 h2 ⊢
  simp only [Bool.not_eq_true'] at h1 h2 ⊢
  rcases hca : strLtL c.data a.data with _ | _
  · rfl
  · exfalso
    rcases hab : strLtL a.data b.data with _ | _
    · have heq : a.data = b.data := strLtL_connect a.data b.data hab h1
      rw [heq] at hca
      rw [hca] at h2
      simp at h2
    · have h3 := strLtL_trans c.data a.data b.data hca hab
      rw [h3] at h2
      simp at h2

theorem strLe_connect (a b : String) (h1 : strLe a b = true) (h2 : strLe b a = true) :
    a = b := by
  unfold strLe at h1 h2
  simp only [Bool.not_eq_true'] at h1 h2
  have hdata := strLtL_connect a.data b.data h2 h1
  exact congrArg String.mk hdata

theorem keyBinding_fst (params : List (String × JsVal)) (k : String)
    (kv : String × JsVal) (h : keyBinding params k = some kv) : kv.1 = k := by
  rcases hlk : params.lookup k with _ | v <;> simp only [keyBinding, hlk] at h
  · simp at h
  · split_ifs at h with hv
    rw [← Option.some.inj h]

theorem keyBinding_defined (params : List (String × JsVal)) (k : String)
    (kv : String × JsVal) (h : keyBinding params k = some kv) : kv.2 ≠ .jsUndefined := by
  rcases hlk : params.lookup k with _ | v <;> simp only [keyBinding, hlk] at h
  · simp at h
  · split_ifs at h with hv
    rw [← Option.some.inj h]
    exact hv

theorem filterMap_keyBinding_keys (params : List (String × JsVal))
    (hnd : (params.map Prod.fst).Nodup) :
    (params.map Prod.fst).filterMap (keyBinding params) = definedPart params := by
  induction params with
  | nil => rfl
  | cons kv t ih =>
    obtain ⟨k, v⟩ := kv
    rw [List.map_cons] at hnd ⊢
    rw [List.nodup_cons] at hnd
    obtain ⟨hk, hnd2⟩ := hnd
    have hhead : keyBinding ((k, v) :: t) k =
        if v = .jsUndefined then none else some (k, v) := by
      unfold keyBinding
      rw [List.lookup_cons_self]
    have htail : (t.map Prod.fst).filterMap (keyBinding ((k, v) :: t)) =
        (t.map Prod.fst).filterMap (keyBinding t) := by
      apply List.filterMap_congr
      intro k2 hk2
      have hne : k2 ≠ k := fun h => hk (h ▸ hk2)
      unfold keyBinding
      have : List.lookup k2 ((k, v) :: t) = List.lookup k2 t := by
        simp [List.lookup, beq_eq_false_iff_ne.mpr hne]
      rw [this]
    rw [List.filterMap_cons, hhead]
    by_cases hv : v = .jsUndefined
    · rw [if_pos hv]
      rw [htail, ih hnd2]
      simp [definedPart, hv]
    · rw [if_neg hv]
      rw [htail, ih hnd2]
      simp [definedPart, hv]

theorem canon_perm_definedPart (params : List (String × JsVal))
    (hnd : (params.map Prod.fst).Nodup) :
    (canon params).Perm (definedPart params) := by
  unfold canon
  have h1 := (sortS_perm strLe (params.map Prod.fst)).filterMap (keyBinding params)
  rw [filterMap_keyBinding_keys params hnd] at h1
  exact h1

theorem pairwise_filterMap_fst {R : String → String → Prop}
    {f : String → Option (String × JsVal)}
    (hf : ∀ k kv, f k = some kv → kv.1 = k) :
    ∀ {l : List String}, l.Pairwise R →
      (l.filterMap f).Pairwise (fun a b => R a.1 b.1) := by
  intro l hl
  induction l with
  | nil => simp
  | cons k t ih =>
    rw [List.pairwise_cons] at hl
    obtain ⟨hk, ht⟩ := hl
    rw [List.filterMap_cons]
    rcases hfk : f k with _ | kv
    · exact ih ht
    · refine List.pairwise_cons.mpr ⟨?_, ih ht⟩
      intro b hb
      obtain ⟨k2, hk2, hfk2⟩ := List.mem_filterMap.mp hb
      rw [hf k kv hfk, hf k2 b hfk2]
      exact hk k2 hk2

theorem canon_sorted (params : List (String × JsVal)) :
    (canon params).Pairwise (fun a b => strLe a.1 b.1 = true) := by
  unfold canon
  exact pairwise_filterMap_fst (keyBinding_fst params)
    (sortS_pairwise strLe_total strLe_trans _)

theorem canon_keys_nodup (params : List (String × JsVal))
    (hnd : (params.map Prod.fst).Nodup) :
    (canon params).Pairwise (fun a b => a.1 ≠ b.1) := by
  unfold canon
  have hnd2 : (sortS strLe (params.map Prod.fst)).Nodup :=
    (sortS_perm strLe (params.map Prod.fst)).symm.nodup hnd
  exact pairwise_filterMap_fst (keyBinding_fst params) hnd2

theorem canon_defined (params : List (String × JsVal)) :
    ∀ kv ∈ canon params, kv.2 ≠ .jsUndefined := by
  intro kv hkv
  obtain ⟨k, _, hk⟩ := List.mem_filterMap.mp hkv
  exact keyBinding_defined params k kv hk

theorem canon_eq_of_perm {p1 p2 : List (String × JsVal)}
    (h1 : (p1.map Prod.fst).Nodup) (h2 : (p2.map Prod.fst).Nodup)
    (h : (definedPart p1).Perm (definedPart p2)) : canon p1 = canon p2 := by
  have hperm : (canon p1).Perm (canon p2) :=
    ((canon_perm_definedPart p1 h1).trans h).trans (canon_perm_definedPart p2 h2).symm
  have hs1 := (canon_sorted p1).and (canon_keys_nodup p1 h1)
  have hs2 := (canon_sorted p2).and (canon_keys_nodup p2 h2)
  haveI : IsAntisymm (String × JsVal)
      (fun a b => strLe a.1 b.1 = true ∧ a.1 ≠ b.1) :=
    ⟨fun a b hab hba => absurd (strLe_connect _ _ hab.1 hba.1) hab.2⟩
  exact List.eq_of_perm_of_sorted hperm hs1 hs2

/-! ## The rate-limiter window invariant -/

theorem prune_windowView {w now : Int} (hmono : ∀ t ∈ adm, t ≤ now) :
    prune w now (windowView w adm) = adm.filter fun t => decide (now - w < t) := by
  cases hadm : adm with
  | nil => rfl
  | cons a t =>
    have hne : adm ≠ [] := by rw [hadm]; simp
    have hlast : adm.getLast? = some (adm.getLast hne) := List.getLast?_eq_getLast adm hne
    have hTmem : adm.getLast hne ∈ adm := List.getLast_mem hne
    have hTle : adm.getLast hne ≤ now := hmono _ hTmem
    rw [← hadm]
    unfold windowView prune
    rw [hlast]
    rw [List.filter_filter]
    apply List.filter_congr
    intro x _
    by_cases hx : now - w < x
    · have hx2 : adm.getLast hne - w < x := by omega
      simp [hx, hx2]
    · simp [hx]

theorem trace_state {cfg : RateLimitConfig} (hw : 0 < cfg.windowMs)
    {adm s : List Int} (h : AcquireTrace cfg adm s) :
    s = windowView cfg.windowMs adm := by
  induction h with
  | nil => rfl
  | @step admitted state now state2 _ hmono hstep ih =>
    simp only [acquireStep] at hstep
    split_ifs at hstep with hfull
    have hs2 : state2 = prune cfg.windowMs now state ++ [now] :=
      (Option.some.inj hstep).symm
    have hview : windowView cfg.windowMs (admitted ++ [now]) =
        List.filter (fun t => decide (now - cfg.windowMs < t)) (admitted ++ [now]) := by
      unfold windowView
      rw [List.getLast?_concat]
    have hnow : decide (now - cfg.windowMs < now) = true := by
      simp
      omega
    rw [hs2, ih, prune_windowView hmono, hview, List.filter_append]
    simp only [List.filter_cons, List.filter_nil, hnow]
    rfl

theorem countP_window {w : Int} {adm : List Int} {t : Int} (hle : ∀ x ∈ adm, x ≤ t) :
    (adm.countP fun x => decide (t - w < x) && decide (x ≤ t)) =
      (adm.filter fun x => decide (t - w < x)).length := by
  rw [List.countP_eq_length_filter]
  congr 1
  apply List.filter_congr
  intro x hx
  have : x ≤ t := hle x hx
  simp [this]

theorem acquire_window_bound {cfg : RateLimitConfig} (hw : 0 < cfg.windowMs)
    {adm s : List Int} (h : AcquireTrace cfg adm s) :
    ∀ t ∈ adm,
      (adm.countP fun x => decide (t - cfg.windowMs < x) && decide (x ≤ t)) ≤
        cfg.maxRequests := by
  induction h with
  | nil => simp
  | @step admitted state now state2 htr hmono hstep ih =>
    have hstate := trace_state hw htr
    simp only [acquireStep] at hstep
    split_ifs at hstep with hfull
    push_neg at hfull
    have hprune : (prune cfg.windowMs now state).length =
        (admitted.filter fun x => decide (now - cfg.windowMs < x)).length := by
      rw [hstate, prune_windowView hmono]
    have hat_now : (admitted.countP fun x =>
        decide (now - cfg.windowMs < x) && decide (x ≤ now)) <
          cfg.maxRequests := by
      rw [countP_window hmono, ← hprune]
      exact hfull
    intro t ht
    rcases List.mem_append.mp ht with htmem | htmem
    · -- an earlier admission: the new event only lands in its window when
      -- the clock has not advanced, i.e. `now = t`
      by_cases hnow : now ≤ t
      · have hteq : t = now := le_antisymm (hmono t htmem) hnow
        subst hteq
        rw [List.countP_append]
        have h1 : (List.countP (fun x => decide (t - cfg.windowMs < x) && decide (x ≤ t))
            [t]) ≤ 1 := by
          simp [List.countP_cons]
          split_ifs <;> omega
        omega
      · rw [List.countP_append]
        have h1 : (List.countP (fun x => decide (t - cfg.windowMs < x) && decide (x ≤ t))
            [now]) = 0 := by
          simp [List.countP_cons]
          intro
          omega
        rw [h1]
        simpa using ih t htmem
    · have hteq : t = now := by simpa using htmem
      subst hteq
      rw [List.countP_append]
      have h1 : (List.countP (fun x => decide (t - cfg.windowMs < x) && decide (x ≤ t))
          [t]) ≤ 1 := by
        simp [List.countP_cons]
        split_ifs <;> omega
      omega

/-- C1: for any sequence of `RateLimiter.acquire` calls on one endpoint
category (15/60s for `availability`, 10/60s for `cdx`, 5/60s for `content`,
10/60s for `default`), at every admitted timestamp `t` the number of admitted
timestamps in the window `(t - windowMs, t]` is at most the category's
`maxRequests`. -/
theorem rateLimiter_window_invariant (cat : String) (cfg : RateLimitConfig)
    (hcfg : RATE_LIMITS cat = some cfg) {admitted state : List Int}
    (h : AcquireTrace cfg admitted state) :
    ∀ t ∈ admitted,
      (admitted.countP fun x => decide (t - cfg.windowMs < x) && decide (x ≤ t)) ≤
        cfg.maxRequests := by
  have hw : 0 < cfg.windowMs := by
    unfold RATE_LIMITS at hcfg
    split_ifs at hcfg <;> simp only [Option.some.injEq] at hcfg <;> rw [← hcfg]
    all_goals decide
  exact acquire_window_bound hw h

/-- Witness for C1 at the `cdx` category, with two admissions at times 3
and 7. -/
theorem rateLimiter_window_invariant_witness :
    (([(3 : Int), 7]).countP fun x =>
      decide ((7 : Int) - (⟨10, 60000⟩ : RateLimitConfig).windowMs < x) &&
        decide (x ≤ (7 : Int))) ≤
      (⟨10, 60000⟩ : RateLimitConfig).maxRequests := by
  have h1 : AcquireTrace ⟨10, 60000⟩ ([] ++ [3]) [3] :=
    AcquireTrace.step AcquireTrace.nil (by decide) (by decide)
  have h2 : AcquireTrace ⟨10, 60000⟩ (([] ++ [3]) ++ [7]) [3, 7] :=
    AcquireTrace.step h1 (by decide) (by decide)
  exact rateLimiter_window_invariant "cdx" ⟨10, 60000⟩ (by decide) h2 7 (by decide)

/-! ## Retry classification -/

/-- C2: an operation failing with HTTP 404 on the first attempt makes
`withRetry` raise the `NOT_FOUND`-coded error at once — no backoff sleep, no
further attempt; an operation failing once with HTTP 503 and then succeeding
makes `withRetry` return the success after exactly one `2000`ms backoff
sleep. -/
theorem withRetry_terminal_classification {A : Type} (op : Nat → Except OpErr A) :
    (op 0 = .error (.http 404) →
      withRetry op 3 = ⟨.apiError "NOT_FOUND" 404, [], 1⟩) ∧
    (∀ v : A, op 0 = .error (.http 503) → op 1 = .ok v →
      withRetry op 3 = ⟨.ok v, [2000], 2⟩) := by
  constructor
  · intro h
    show withRetryGo op (2 + 1) 0 none [] 0 = _
    rw [withRetryGo, h]
    norm_num
  · intro v h0 h1
    show withRetryGo op (2 + 1) 0 none [] 0 = _
    rw [withRetryGo, h0]
    norm_num
    show withRetryGo op (1 + 1) 1 _ _ _ = _
    rw [withRetryGo, h1]

/-- Witness for C2: a 404-on-first-attempt operation and a 503-then-200
operation. -/
theorem withRetry_terminal_classification_witness :
    withRetry (fun n => if n = 0 then Except.error (OpErr.http 404) else Except.ok (0 : Nat)) 3 =
        ⟨.apiError "NOT_FOUND" 404, [], 1⟩ ∧
      withRetry (fun n => if n = 0 then Except.error (OpErr.http 503) else Except.ok (7 : Nat)) 3 =
        ⟨.ok 7, [2000], 2⟩ :=
  ⟨(withRetry_terminal_classification _).1 rfl,
   (withRetry_terminal_classification _).2 7 rfl rfl⟩

/-- C3 counterexample: an operation failing with HTTP 500 on every attempt.
On the final attempt the loop is not exhausted with `lastError` re-thrown;
`withRetry` instead throws a fresh `WaybackApiError` with code `API_ERROR`
(client.ts:752-756), because the `status >= 500` branch only retries when
attempts remain and otherwise falls through to the generic HTTP-error
`throw`. -/
theorem withRetry_finalServerError_counterexample :
    (withRetry (fun _ => Except.error (OpErr.http 500) : Nat → Except OpErr Nat) 3).outcome ≠
        RetryOutcome.rawError (OpErr.http 500) ∧
      withRetry (fun _ => Except.error (OpErr.http 500) : Nat → Except OpErr Nat) 3 =
        ⟨.apiError "API_ERROR" 500, [1000, 2000], 3⟩ := by
  constructor
  · decide
  · decide

/-- C3 amended: when the final allowed attempt fails with an HTTP status
`>= 500` other than 503, `withRetry` raises a `WaybackApiError` coded
`API_ERROR` carrying that status from inside the loop — not the recorded
`lastError` of the attempt. -/
theorem withRetry_finalServerError_apiError {A : Type} (op : Nat → Except OpErr A)
    (s : Int) (h0 : op 0 = .error .nonHttp) (h1 : op 1 = .error .nonHttp)
    (h2 : op 2 = .error (.http s)) (hs : 500 ≤ s) (h503 : s ≠ 503) :
    withRetry op 3 = ⟨.apiError "API_ERROR" s, [1000, 2000], 3⟩ := by
  have h429 : ¬(s = 429 ∨ s = 503) := by omega
  have h404 : s ≠ 404 := by omega
  show withRetryGo op (2 + 1) 0 none [] 0 = _
  rw [withRetryGo, h0]
  norm_num
  show withRetryGo op (1 + 1) 1 _ _ _ = _
  rw [withRetryGo, h1]
  norm_num
  show withRetryGo op (0 + 1) 2 _ _ _ = _
  rw [withRetryGo, h2]
  simp [h429, h404]

/-- Witness for C3's amended theorem at status 500. -/
theorem withRetry_finalServerError_apiError_witness :
    withRetry (fun n => if n = 2 then Except.error (OpErr.http 500)
        else Except.error OpErr.nonHttp : Nat → Except OpErr Nat) 3 =
      ⟨.apiError "API_ERROR" 500, [1000, 2000], 3⟩ :=
  withRetry_finalServerError_apiError _ 500 rfl rfl rfl (by decide) (by decide)

/-! ## Snapshot self-comparison -/

/-- C4: comparing identical parsed contents (the `timestamp1 = timestamp2`
case) with the default `compareElements` does NOT yield `hasChanges: false`
with an empty changes map: the `content`, `links` and `structure` entries are
assigned unconditionally (each with `changed: false` inside), so
`Object.keys(changes).length` is 3 and `hasChanges` is `true`.  This
contradicts the spec's identical-timestamp property; the code's
`hasChanges = Object.keys(changes).length > 0` is the slip. -/
theorem compareSnapshots_identical_hasChanges
    (dl : String → String → List DiffChunk) (cp : String → String → String)
    (c : ParsedContent) :
    (compareSnapshots dl cp none none c c).2 = true ∧
      (compareSnapshots dl cp none none c c).1.title = none ∧
      (compareSnapshots dl cp none none c c).1.metaDescription = none ∧
      (compareSnapshots dl cp none none c c).1.headings = none ∧
      (compareSnapshots dl cp none none c c).1.content.isSome = true ∧
      (compareSnapshots dl cp none none c c).1.links.isSome = true ∧
      (compareSnapshots dl cp none none c c).1.structureChange.isSome = true ∧
      ((compareSnapshots dl cp none none c c).1.content.map ContentChange.changed) =
        some false := by
  simp [compareSnapshots, changesKeyCount, elemCond, compareContent, arraysEqual]

/-! ## Site-URL resume-key handling -/

/-- C5 counterexample: a 3-element upstream array (header, one data row, a
resume marker `["", "K"]`) parses to ONE data row, not `3 - 1 = 2`:
`result.slice(1, -1)` strips both the header row and the resume marker. -/
theorem splitResumeKey_counterexample :
    (splitResumeKey [["ts"], ["a", "b", "c", "d", "e"], ["", "K"]]).2.length ≠
        ([["ts"], ["a", "b", "c", "d", "e"], ["", "K"]] : List (List String)).length - 1 ∧
      splitResumeKey [["ts"], ["a", "b", "c", "d", "e"], ["", "K"]] =
        (some "K", [["a", "b", "c", "d", "e"]]) := by
  constructor
  · decide
  · decide

/-- C5 amended: when the final element is `["", k]`, the parsed rows are
`result.slice(1, -1)` — exactly 2 fewer than the raw array length (header
row and resume marker both stripped) — with `resumeKey = k`, and
`truncated = !!resumeKey` is `true` whenever `k` is nonempty; when the final
element is not of that shape, only the header is stripped, `truncated` is
`false` and `resumeKey` is absent. -/
theorem splitResumeKey_spec (result : List (List String)) :
    (∀ k, result.getLast? = some ["", k] →
      splitResumeKey result = (some k, (result.drop 1).dropLast) ∧
        (splitResumeKey result).2.length = result.length - 2 ∧
        (k ≠ "" → truncatedFlag (splitResumeKey result).1 = true)) ∧
    ((∀ k, result.getLast? ≠ some ["", k]) →
      (splitResumeKey result).1 = none ∧
        truncatedFlag (splitResumeKey result).1 = false ∧
        (splitResumeKey result).2 = result.drop 1) := by
  constructor
  · intro k hk
    have hne : 0 < result.length := by
      cases result with
      | nil => simp at hk
      | cons a t => simp
    have hlastD : result.getLastD [] = ["", k] := by
      rw [List.getLastD_eq_getLast?, hk]
      rfl
    have heq : splitResumeKey result = (some k, (result.drop 1).dropLast) := by
      unfold splitResumeKey
      rw [if_pos hne]
      simp [List.getLastD_eq_getLast?, hk]
    refine ⟨heq, ?_, ?_⟩
    · rw [heq]
      simp only [List.length_dropLast, List.length_drop]
      omega
    · intro hk2
      rw [heq]
      simp [truncatedFlag, hk2]
  · intro hk
    cases hres : result.getLast? with
    | none =>
      have hnil : result = [] := by
        cases result with
        | nil => rfl
        | cons a t => simp at hres
      subst hnil
      exact ⟨rfl, rfl, rfl⟩
    | some lastRow =>
      have hne : 0 < result.length := by
        cases result with
        | nil => simp at hres
        | cons a t => simp
      have hshape : ∀ k, lastRow ≠ ["", k] := by
        intro k hcontra
        exact hk k (by rw [hres, hcontra])
      have hlastD : result.getLastD [] = lastRow := by
        rw [List.getLastD_eq_getLast?, hres]
        rfl
      have hcond : ¬(lastRow.length = 2 ∧ lastRow.getD 0 "x" = "") := by
        rintro ⟨hlen, hget⟩
        rcases lastRow with _ | ⟨a, _ | ⟨b, _ | ⟨c, t⟩⟩⟩ <;> simp at hlen
        simp at hget
        subst hget
        exact hshape b rfl
      have heq : splitResumeKey result = (none, result.drop 1) := by
        unfold splitResumeKey
        rw [if_pos hne]
        simp only [hlastD]
        rw [if_neg hcond]
      rw [heq]
      exact ⟨rfl, rfl, rfl⟩

/-- Witness for C5's amended theorem on a concrete 3-row array and a
concrete resume-key-free array. -/
theorem splitResumeKey_spec_witness :
    splitResumeKey [["f"], ["r1"], ["", "KEY"]] = (some "KEY", [["r1"]]) ∧
      (splitResumeKey [["f"], ["r1"], ["", "KEY"]]).2.length =
        ([["f"], ["r1"], ["", "KEY"]] : List (List String)).length - 2 ∧
      (splitResumeKey [["f"], ["r2"]]).1 = none ∧
      (splitResumeKey [["f"], ["r2"]]).2 = [["r2"]] :=
  ⟨((splitResumeKey_spec _).1 "KEY" (by decide)).1,
   ((splitResumeKey_spec _).1 "KEY" (by decide)).2.1,
   ((splitResumeKey_spec [["f"], ["r2"]]).2 (by intro k h; simp at h)).1,
   ((splitResumeKey_spec [["f"], ["r2"]]).2 (by intro k h; simp at h)).2.2⟩

/-! ## Cache key determinism and injectivity -/

/-- C6: with the same prefix, two parameter records produce the same cache
key exactly when they carry the same non-undefined bindings (in any
insertion order); in particular records differing in some non-undefined
value get different keys. -/
theorem generateKey_deterministic (pfx : String) (p1 p2 : List (String × JsVal))
    (h1 : (p1.map Prod.fst).Nodup) (h2 : (p2.map Prod.fst).Nodup) :
    generateKey pfx p1 = generateKey pfx p2 ↔ (definedPart p1).Perm (definedPart p2) := by
  constructor
  · intro h
    have hdata : pfx.data ++ ':' :: serObj (canon p1) =
        pfx.data ++ ':' :: serObj (canon p2) := congrArg String.data h
    have hcons := List.append_cancel_left hdata
    injection hcons with _ hser
    have hc : canon p1 = canon p2 :=
      serObj_inj (canon_defined p1) (canon_defined p2) hser
    have ha := (canon_perm_definedPart p1 h1).symm
    rw [hc] at ha
    exact ha.trans (canon_perm_definedPart p2 h2)
  · intro h
    unfold generateKey
    rw [canon_eq_of_perm h1 h2 h]

/-- Witness for C6: `{b:2, a:1}` and `{a:1, b:2}` collide to one key. -/
theorem generateKey_deterministic_witness :
    generateKey "cdx" [("b", JsVal.jnum 2), ("a", JsVal.jnum 1)] =
      generateKey "cdx" [("a", JsVal.jnum 1), ("b", JsVal.jnum 2)] :=
  (generateKey_deterministic "cdx" _ _ (by decide) (by decide)).mpr (by decide)

/-! ## Cache TTL per data class -/

/-- C7: the first four data classes store their documented TTLs, but
`CACHE_TTL` has no `SITE_URLS` property, so the `getSiteUrls` `cache.set`
call passes `undefined` and stores the 3600-second default — the same TTL as
availability, not a TTL of its own. -/
theorem cacheTtl_by_data_class :
    storedTtlFor "AVAILABILITY" = 3600 ∧ storedTtlFor "SNAPSHOTS" = 86400 ∧
      storedTtlFor "SNAPSHOT_CONTENT" = 604800 ∧ storedTtlFor "CDX_QUERIES" = 43200 ∧
      CACHE_TTL "SITE_URLS" = none ∧
      storedTtlFor "SITE_URLS" = storedTtlFor "AVAILABILITY" := by
  decide

/-! ## Site-URL limit placement -/

theorem lookup_none_iff {β : Type} (m : List (String × β)) (u : String) :
    m.lookup u = none ↔ u ∉ m.map Prod.fst := by
  induction m with
  | nil => simp
  | cons kv t ih =>
    obtain ⟨k, b⟩ := kv
    by_cases h : u = k
    · subst h
      simp [List.lookup_cons_self]
    · have hbeq : (u == k) = false := by simpa using h
      simp only [List.lookup, List.map_cons, List.mem_cons, hbeq]
      simp [h, ih]

theorem addTs_keys (m : List (String × UrlAgg)) (url ts : String) :
    (addTs m url ts).map Prod.fst = m.map Prod.fst := by
  unfold addTs
  rw [List.map_map]
  apply List.map_congr_left
  intro kv _
  by_cases h : kv.1 = url <;> simp [h]

theorem addTs_nomem (m : List (String × UrlAgg)) (url ts : String)
    (h : url ∉ m.map Prod.fst) : addTs m url ts = m := by
  induction m with
  | nil => rfl
  | cons kv t ih =>
    simp only [List.map_cons, List.mem_cons] at h
    push_neg at h
    unfold addTs
    rw [List.map_cons]
    rw [if_neg (by intro hc; exact h.1 hc.symm)]
    have ht := ih h.2
    unfold addTs at ht
    rw [ht]

theorem addTs_sum (m : List (String × UrlAgg)) (url ts : String)
    (hnd : (m.map Prod.fst).Nodup) (hmem : (m.lookup url).isSome) :
    ((addTs m url ts).map fun kv => kv.2.timestamps.length).sum =
      ((m.map fun kv => kv.2.timestamps.length).sum) + 1 := by
  induction m with
  | nil => simp [List.lookup] at hmem
  | cons kv t ih =>
    obtain ⟨k, agg⟩ := kv
    rw [List.map_cons, List.nodup_cons] at hnd
    by_cases h : k = url
    · subst h
      have ht : addTs t k ts = t := addTs_nomem t k ts hnd.1
      unfold addTs
      rw [List.map_cons, if_pos rfl]
      unfold addTs at ht
      rw [ht]
      simp
      omega
    · have hbeq : (url == k) = false := by
        simp only [beq_eq_false_iff_ne]
        intro hc
        exact h hc.symm
      have hmem2 : (t.lookup url).isSome := by
        simpa [List.lookup, hbeq] using hmem
      unfold addTs
      rw [List.map_cons, if_neg (by simpa using h)]
      have := ih hnd.2 hmem2
      unfold addTs at this
      simp only [List.map_cons, List.sum_cons, this]
      omega

theorem buildUrlMap_sum (rows : List (List String)) :
    ∀ m : List (String × UrlAgg), (m.map Prod.fst).Nodup →
      ((buildUrlMap rows m).map fun kv => kv.2.timestamps.length).sum =
        ((m.map fun kv => kv.2.timestamps.length).sum) + rows.length := by
  induction rows with
  | nil => intro m _; simp [buildUrlMap]
  | cons row rest ih =>
    intro m hnd
    rw [buildUrlMap]
    by_cases hmem : (m.lookup (row.getD 0 "")).isSome
    · rw [if_pos hmem]
      have hkeys : ((addTs m (row.getD 0 "") (row.getD 1 "")).map Prod.fst).Nodup := by
        rw [addTs_keys]; exact hnd
      rw [ih _ hkeys, addTs_sum m _ _ hnd hmem]
      simp
      omega
    · rw [if_neg hmem]
      set m2 := m ++ [(row.getD 0 "",
        (⟨[], orDefault (row.getD 2 "") "200",
          orDefault (row.getD 3 "") "text/html"⟩ : UrlAgg))] with hm2
      have hnotin : row.getD 0 "" ∉ m.map Prod.fst := by
        rw [← lookup_none_iff]
        rcases hl : m.lookup (row.getD 0 "") with _ | v
        · rfl
        · rw [hl] at hmem; simp at hmem
      have hnd2 : (m2.map Prod.fst).Nodup := by
        rw [hm2, List.map_append]
        refine List.Nodup.append hnd (by simp) ?_
        intro a ha hb
        simp at hb
        subst hb
        exact hnotin (by simpa using ha)
      have hmem2 : (m2.lookup (row.getD 0 "")).isSome := by
        rw [hm2, List.lookup_append]
        rcases hl : m.lookup (row.getD 0 "") with _ | v
        · simp [List.lookup_cons_self]
        · simp
      have hkeys : ((addTs m2 (row.getD 0 "") (row.getD 1 "")).map Prod.fst).Nodup := by
        rw [addTs_keys]; exact hnd2
      rw [ih _ hkeys, addTs_sum m2 _ _ hnd2 hmem2]
      rw [hm2]
      simp
      omega

/-- The aggregation totals every fetched row: no truncation happens before
or during `aggregateByUrl`. -/
theorem aggregateByUrl_total (rows : List (List String)) :
    (aggregateByUrl rows).2 = rows.length := by
  unfold aggregateByUrl
  simpa using buildUrlMap_sum rows [] (by simp)

/-- C8 amended: in the capture-count branch the limit is applied after
aggregation (which totals every row) but BEFORE the requested `sortBy`
re-sort: the pipeline is `applySort ∘ applyLimit ∘ aggregateByUrl`. -/
theorem getSiteUrls_limit_order (params : SiteUrlsParams) (rows : List (List String))
    (h : params.includeCaptureCounts = true) :
    getSiteUrlsProcess params rows =
        (applySort params.sortBy (applyLimit params.limit (aggregateByUrl rows).1),
          (aggregateByUrl rows).2) ∧
      (getSiteUrlsProcess params rows).2 = rows.length := by
  constructor
  · simp [getSiteUrlsProcess, h]
  · simp [getSiteUrlsProcess, h, aggregateByUrl_total]

/-- Witness for C8's amended theorem on two concrete rows. -/
theorem getSiteUrls_limit_order_witness :
    getSiteUrlsProcess ⟨some 2, some .captures, true⟩ [["A", "2"], ["B", "1"]] =
        (applySort (some .captures)
          (applyLimit (some 2) (aggregateByUrl [["A", "2"], ["B", "1"]]).1),
          (aggregateByUrl [["A", "2"], ["B", "1"]]).2) ∧
      (getSiteUrlsProcess ⟨some 2, some .captures, true⟩ [["A", "2"], ["B", "1"]]).2 = 2 :=
  getSiteUrls_limit_order ⟨some 2, some .captures, true⟩ [["A", "2"], ["B", "1"]] rfl

/-- C8 counterexample: with `includeCaptureCounts`, `limit: 1` and
`sortBy: 'oldest'`, the code truncates to the most-captured URL `A` before
re-sorting, while the spec's limit-last order would return the oldest URL
`B`. -/
theorem getSiteUrls_limit_before_sort :
    getSiteUrlsProcess ⟨some 1, some .oldest, true⟩ [["A", "2"], ["A", "3"], ["B", "1"]] ≠
        getSiteUrlsSpecOrder ⟨some 1, some .oldest, true⟩ [["A", "2"], ["A", "3"], ["B", "1"]] ∧
      (getSiteUrlsProcess ⟨some 1, some .oldest, true⟩
          [["A", "2"], ["A", "3"], ["B", "1"]]).1 =
        [⟨"A", "2", "3", 2, "200", "text/html"⟩] ∧
      (getSiteUrlsSpecOrder ⟨some 1, some .oldest, true⟩
          [["A", "2"], ["A", "3"], ["B", "1"]]).1 =
        [⟨"B", "1", "1", 1, "200", "text/html"⟩] := by
  refine ⟨?_, ?_, ?_⟩ <;> decide

/-! ## www-variant merging -/

/-- C9: when the combined primary+fallback lookup reports the requested URL
`http://example.com` as not archived but its `www` variant (serialized by
`new URL` as `http://www.example.com/`) as archived, `checkAvailability` with
variant checking on returns the variant's archived result relabeled under
the originally requested URL, with `checkedVariant` naming the variant
actually found. -/
theorem checkAvailability_wwwVariant_merge
    (prim : String → Option ClosestSnap) (cdx : String → List (List String))
    (hno : (checkAvailabilityInternal prim cdx "http://example.com").isArchived = false)
    (hyes : (checkAvailabilityInternal prim cdx "http://www.example.com/").isArchived = true) :
    (checkAvailability prim cdx "http://example.com" true).isArchived = true ∧
      (checkAvailability prim cdx "http://example.com" true).url = "http://example.com" ∧
      (checkAvailability prim cdx "http://example.com" true).checkedVariant =
        some "http://www.example.com/" := by
  have hvar : getWwwVariant "http://example.com" = some "http://www.example.com/" := by
    decide
  unfold checkAvailability
  rw [hvar]
  simp [hno, hyes]

/-- Witness for C9 with a primary oracle that only knows the `www` variant. -/
theorem checkAvailability_wwwVariant_merge_witness :
    (checkAvailability
        (fun u => if u = "http://www.example.com/" then
          some ⟨true, "https://web.archive.org/web/20200101000000/http://www.example.com/",
            "20200101000000", "200"⟩
          else none)
        (fun _ => []) "http://example.com" true).isArchived = true ∧
      (checkAvailability
        (fun u => if u = "http://www.example.com/" then
          some ⟨true, "https://web.archive.org/web/20200101000000/http://www.example.com/",
            "20200101000000", "200"⟩
          else none)
        (fun _ => []) "http://example.com" true).url = "http://example.com" ∧
      (checkAvailability
        (fun u => if u = "http://www.example.com/" then
          some ⟨true, "https://web.archive.org/web/20200101000000/http://www.example.com/",
            "20200101000000", "200"⟩
          else none)
        (fun _ => []) "http://example.com" true).checkedVariant =
        some "http://www.example.com/" :=
  checkAvailability_wwwVariant_merge _ _ (by decide) (by decide)

/-! ## Cache set/get TTL semantics -/

/-- C10 counterexample: `set` with a negative `ttl` (here `-1`) stores a
negative TTL — not `0`, but the stored entry is already expired, so a `get`
of the same key at the very same clock value misses
(`timestamp + ttl*1000 < now` holds).  The claim's "a set followed
immediately by a get of the same key always returns the value" fails. -/
theorem cacheSet_negative_ttl_misses :
    cacheGet (cacheSet (fun _ => none) "k" (JsVal.jnum 1) (some (-1)) 0) "k" 0 = none ∧
      cacheSet (fun _ => none) "k" (JsVal.jnum 1) (some (-1)) 0 "k" =
        some ⟨JsVal.jnum 1, 0, -1⟩ := by
  constructor
  · decide
  · decide

/-- C10 amended: `set` with `ttl` omitted/`undefined` or `0` stores exactly
3600 seconds; no `set` call ever stores TTL `0`; and a `set` with a
NON-NEGATIVE (or defaulted) `ttl` of a JSON-representable value followed
immediately by a `get` of the same key returns the value. -/
theorem cacheSet_defaults_and_get (store : String → Option CacheEntry) (key : String)
    (v : JsVal) (now : Int) :
    cacheSet store key v none now key = some ⟨v, now, 3600⟩ ∧
      cacheSet store key v (some 0) now key = some ⟨v, now, 3600⟩ ∧
      (∀ ttl : Option Int, ∃ e, cacheSet store key v ttl now key = some e ∧ e.ttl ≠ 0) ∧
      (∀ ttl : Option Int, (∀ t, ttl = some t → 0 ≤ t) → v ≠ .jsUndefined →
        cacheGet (cacheSet store key v ttl now) key now = some v) := by
  refine ⟨by simp [cacheSet, effTtl], by simp [cacheSet, effTtl], ?_, ?_⟩
  · intro ttl
    have hne : effTtl ttl ≠ 0 := by
      rcases ttl with _ | t
      · decide
      · show (if t = 0 then 3600 else t) ≠ 0
        split_ifs with h
        · norm_num
        · exact h
    exact ⟨⟨v, now, effTtl ttl⟩, by simp [cacheSet], hne⟩
  · intro ttl htl hv
    have hnn : 0 ≤ effTtl ttl := by
      rcases ttl with _ | t
      · decide
      · show (0 : Int) ≤ if t = 0 then 3600 else t
        split_ifs with h
        · norm_num
        · exact htl t rfl
    have hmul : 0 ≤ effTtl ttl * 1000 :=
      mul_nonneg hnn (by norm_num)
    have hset : cacheSet store key v ttl now key = some ⟨v, now, effTtl ttl⟩ := by
      simp [cacheSet]
    unfold cacheGet
    rw [hset]
    show (if now + effTtl ttl * 1000 < now then none
      else if v = JsVal.jsUndefined then none else some v) = some v
    rw [if_neg (by omega), if_neg hv]

/-- Witness for C10's amended theorem: a 2-second-TTL `set` of `5` followed
by an immediate `get`. -/
theorem cacheSet_defaults_and_get_witness :
    cacheGet (cacheSet (fun _ => none) "k" (JsVal.jnum 5) (some 2) 0) "k" 0 =
      some (JsVal.jnum 5) :=
  (cacheSet_defaults_and_get (fun _ => none) "k" (JsVal.jnum 5) 0).2.2.2 (some 2)
    (by intro t ht; injection ht with h; omega) (by decide)

end Wayback
